import Mathlib

/-!
Verification of the `pi_stash` stack store (`src/lib.rs`).

The store is a `DashMap<String, Mutex<Vec<String>>>`. We embed it as an
association list from keys to stacks; along every state reachable by the
operations the keys are pairwise distinct, mirroring the map. The four
operations `set`, `get`, `iter` and `del_stack` are translated directly from
the Rust source. Mutex poisoning is invisible here: every poisoned branch of
the source recovers the data and performs the same action as the clean branch,
so the sequential semantics is the same function.
-/

namespace PiStash

/-- Lower-case hexadecimal digit, as serde_json prints escaped control
characters. -/
def hexDigit (n : Nat) : Char :=
  if n < 10 then Char.ofNat (48 + n) else Char.ofNat (87 + n)

/-- JSON escaping of one character, following serde_json: quote and backslash
are backslash-escaped, the control characters with short escape forms use
them, every other control character below 0x20 becomes a lower-case \u00XX
sequence, and all remaining characters are emitted verbatim. -/
def escapeChar (c : Char) : String :=
  if c = '"' then "\\\""
  else if c = '\\' then "\\\\"
  else if c = '\x08' then "\\b"
  else if c = '\x0c' then "\\f"
  else if c = '\n' then "\\n"
  else if c = '\r' then "\\r"
  else if c = '\t' then "\\t"
  else if c.toNat < 32 then
    String.mk ['\\', 'u', '0', '0', hexDigit (c.toNat / 16), hexDigit (c.toNat % 16)]
  else String.singleton c

/-- A JSON string literal for `s`. -/
def jsonStringLit (s : String) : String :=
  "\"" ++ String.join (s.toList.map escapeChar) ++ "\""

/-- A JSON array whose element texts are already rendered. -/
def jsonArray (elems : List String) : String :=
  "[" ++ String.intercalate "," elems ++ "]"

/-- serde_json rendering of a `Vec<String>`. -/
def jsonStrings (l : List String) : String :=
  jsonArray (l.map jsonStringLit)

/-- `serde_json::to_string(&Vec<String>).ok()`: serializing plain strings
cannot fail, so the result is always `Some`. -/
def toJsonStrings (l : List String) : Option String :=
  some (jsonStrings l)

/-- serde_json rendering of one `(String, Vec<String>)` pair: a two-element
JSON array. -/
def jsonEntry (e : String × List String) : String :=
  jsonArray [jsonStringLit e.1, jsonStrings e.2]

/-- serde_json rendering of a `Vec<(String, Vec<String>)>`. -/
def jsonEntriesStr (l : List (String × List String)) : String :=
  jsonArray (l.map jsonEntry)

/-- `serde_json::to_string(&Vec<(String, Vec<String>)>).ok()`: serializing
pairs of strings and string vectors cannot fail, so the result is always
`Some`. -/
def toJsonEntries (l : List (String × List String)) : Option String :=
  some (jsonEntriesStr l)

/-- The `DashMap<String, Mutex<Vec<String>>>` inside `StackStore`, embedded as
an association list from key to stack. -/
abbrev Store := List (String × List String)

/-- Map lookup: the stack stored under `k`, if any. -/
def lookupStore : Store → String → Option (List String)
  | [], _ => none
  | e :: rest, k => if e.1 = k then some e.2 else lookupStore rest k

/-- `DashMap::insert`: replace the entry for `k` in place if present,
otherwise add a new entry. -/
def insertStore : Store → String → List String → Store
  | [], k, v => [(k, v)]
  | e :: rest, k, v => if e.1 = k then (k, v) :: rest else e :: insertStore rest k v

/-- `DashMap::remove`: delete the entry for `k`, if any. -/
def removeStore : Store → String → Store
  | [], _ => []
  | e :: rest, k => if e.1 = k then rest else e :: removeStore rest k

/-- Character-level substring search. Rust's `str::contains(&str)` is a
byte-substring test, but over valid UTF-8 any byte-level match of a valid
needle falls on character boundaries, so the two agree. -/
def containsSub (needle : List Char) : List Char → Bool
  | [] => needle.isEmpty
  | c :: rest => List.isPrefixOf needle (c :: rest) || containsSub needle rest

/-- Rust `key.contains(key_filter)` on strings. -/
def strContains (s sub : String) : Bool :=
  containsSub sub.toList s.toList

/-- `StackStore::set` (src/lib.rs lines 43-62): if the key has an entry, push
the value onto its stack under the entry's mutex; otherwise insert a fresh
one-element vector. -/
def set (s : Store) (k : String) (v : String) : Store :=
  match lookupStore s k with
  | some stack => insertStore s k (stack ++ [v])
  | none => insertStore s k [v]

/-- `StackStore::get` (src/lib.rs lines 75-86): serialize the whole stack at
`k` to a JSON array, `None` when the key is absent. -/
def get (s : Store) (k : String) : Option String :=
  (lookupStore s k).bind toJsonStrings

/-- The filtered entry list that `StackStore::iter` collects (src/lib.rs
lines 101-115): every entry whose key contains the filter, with its stack
cloned. -/
def iterEntries (s : Store) (f : String) : Store :=
  s.filter (fun e => strContains e.1 f)

/-- `StackStore::iter` (src/lib.rs lines 100-117): serialize the filtered
entry list, `None` only on serialization failure. -/
def iter (s : Store) (f : String) : Option String :=
  toJsonEntries (iterEntries s f)

/-- `StackStore::del_stack` (src/lib.rs lines 124-126): remove the entry for
`k` and report whether it existed. -/
def del_stack (s : Store) (k : String) : Bool × Store :=
  ((lookupStore s k).isSome, removeStore s k)

/-- A mutating operation on the store (the snapshot operations do not change
state). -/
inductive Op where
  | push : String → String → Op
  | drop : String → Op

deriving instance DecidableEq for Op

/-- Apply one operation to a store. -/
def applyStoreOp (s : Store) : Op → Store
  | Op.push k v => set s k v
  | Op.drop k => (del_stack s k).2

/-- Run a sequence of operations from a given store. -/
def runFrom : Store → List Op → Store
  | s, [] => s
  | s, op :: ops => runFrom (applyStoreOp s op) ops

/-- The effect of one operation on the stack held under a single key `k`
(`none` when the key is absent). -/
def applyKeyOp (k : String) (st : Option (List String)) : Op → Option (List String)
  | Op.push k2 v => if k2 = k then some (st.getD [] ++ [v]) else st
  | Op.drop k2 => if k2 = k then none else st

/-- Spec-side presence tracker: after `ops`, has `k` been pushed to with no
later drop of `k`? -/
def keyPresentStep (k : String) (acc : Bool) : Op → Bool
  | Op.push k2 _ => if k2 = k then true else acc
  | Op.drop k2 => if k2 = k then false else acc

/-- Spec-side predicate, from the claim's words: `k` has been pushed to and
not dropped since its last push. -/
def pushedSinceLastDrop (ops : List Op) (k : String) : Bool :=
  ops.foldl (keyPresentStep k) false

/-- The values pushed to key `k` by a sequence of operations, in order. -/
def pushesTo (k : String) (ops : List Op) : List String :=
  ops.filterMap
    (fun op =>
      match op with
      | Op.push k2 v => if k2 = k then some v else none
      | Op.drop _ => none)

/-- Where a thread running `StackStore::set` stands: it has not yet evaluated
`self.inner.get(key)`; or that lookup found no entry and the `insert` at line
61 is still pending; or the call has returned. -/
inductive PushPhase where
  | start
  | pendingInsert
  | done

deriving instance DecidableEq, Repr for PushPhase

/-- One thread executing `StackStore::set(key, value)`. -/
structure PThread where
  key : String
  value : String
  phase : PushPhase

deriving instance DecidableEq, Repr for PThread

/-- One scheduler step of thread `i` in the interleaving semantics of
`StackStore::set`. At `start` the thread evaluates `self.inner.get(key)`:
when an entry exists it locks the per-entry mutex and appends — one atomic
step here, since the DashMap guard is held throughout and appends under the
mutex serialize — and when no entry exists it proceeds to the `insert` at
line 61. That `insert` is a separate step: on a DashMap it replaces whatever
entry another thread may have installed in between. -/
def microStep (c : List PThread × Store) (i : Nat) : List PThread × Store :=
  match c.1[i]? with
  | none => c
  | some t =>
    match t.phase with
    | PushPhase.done => c
    | PushPhase.start =>
      match lookupStore c.2 t.key with
      | some stack =>
        (c.1.set i (PThread.mk t.key t.value PushPhase.done),
          insertStore c.2 t.key (stack ++ [t.value]))
      | none => (c.1.set i (PThread.mk t.key t.value PushPhase.pendingInsert), c.2)
    | PushPhase.pendingInsert =>
      (c.1.set i (PThread.mk t.key t.value PushPhase.done), insertStore c.2 t.key [t.value])

/-- Run the threads under a given schedule (a list of thread indices). -/
def runSched (c : List PThread × Store) : List Nat → List PThread × Store
  | [] => c
  | i :: rest => runSched (microStep c i) rest

theorem lookup_insert_self (s : Store) (k : String) (v : List String) :
    lookupStore (insertStore s k v) k = some v := by
  induction s with
  | nil => simp [insertStore, lookupStore]
  | cons e rest ih =>
    by_cases h : e.1 = k
    · simp [insertStore, h, lookupStore]
    · simp [insertStore, h, lookupStore, ih]

theorem lookup_insert_other (s : Store) (k k2 : String) (v : List String) (h : k ≠ k2) :
    lookupStore (insertStore s k v) k2 = lookupStore s k2 := by
  induction s with
  | nil => simp [insertStore, lookupStore, h]
  | cons e rest ih =>
    by_cases he : e.1 = k
    · subst he
      simp [insertStore, lookupStore, h]
    · simp [insertStore, he, lookupStore, ih]

theorem lookup_remove_other (s : Store) (k k2 : String) (h : k ≠ k2) :
    lookupStore (removeStore s k) k2 = lookupStore s k2 := by
  induction s with
  | nil => simp [removeStore]
  | cons e rest ih =>
    by_cases he : e.1 = k
    · subst he
      simp [removeStore, lookupStore, h]
    · simp [removeStore, he, lookupStore, ih]

theorem lookup_eq_none_iff (s : Store) (k : String) :
    lookupStore s k = none ↔ k ∉ s.map Prod.fst := by
  induction s with
  | nil => simp [lookupStore]
  | cons e rest ih =>
    by_cases he : e.1 = k
    · subst he
      simp [lookupStore]
    · have hne : ¬ k = e.1 := fun h2 => he h2.symm
      simp only [lookupStore, if_neg he, List.map_cons, List.mem_cons, ih, not_or]
      tauto

theorem lookup_remove_self (s : Store) (k : String) (h : (s.map Prod.fst).Nodup) :
    lookupStore (removeStore s k) k = none := by
  induction s with
  | nil => simp [removeStore, lookupStore]
  | cons e rest ih =>
    simp only [List.map_cons, List.nodup_cons] at h
    by_cases he : e.1 = k
    · subst he
      simp only [removeStore, if_pos rfl]
      exact (lookup_eq_none_iff rest e.1).2 h.1
    · simp [removeStore, he, lookupStore, ih h.2]

theorem keys_insert (s : Store) (k : String) (v : List String) :
    (insertStore s k v).map Prod.fst =
      if (lookupStore s k).isSome then s.map Prod.fst else s.map Prod.fst ++ [k] := by
  induction s with
  | nil => simp [insertStore, lookupStore]
  | cons e rest ih =>
    by_cases he : e.1 = k
    · subst he
      simp [insertStore, lookupStore]
    · simp only [insertStore, if_neg he, lookupStore, List.map_cons, ih]
      by_cases hs : (lookupStore rest k).isSome
      · simp [he, hs]
      · simp [he, hs]

theorem nodup_insert (s : Store) (k : String) (v : List String)
    (h : (s.map Prod.fst).Nodup) : ((insertStore s k v).map Prod.fst).Nodup := by
  rw [keys_insert]
  by_cases hs : (lookupStore s k).isSome
  · simpa [hs] using h
  · have hk : k ∉ s.map Prod.fst := by
      refine (lookup_eq_none_iff s k).1 ?hnone
      cases hl : lookupStore s k with
      | none => rfl
      | some st => simp [hl] at hs
    simp [hs, List.nodup_append, h, hk]

theorem remove_sublist (s : Store) (k : String) : List.Sublist (removeStore s k) s := by
  induction s with
  | nil => simp [removeStore]
  | cons e rest ih =>
    by_cases he : e.1 = k
    · simp [removeStore, he]
    · simpa [removeStore, he] using ih.cons₂ e

theorem nodup_remove (s : Store) (k : String)
    (h : (s.map Prod.fst).Nodup) : ((removeStore s k).map Prod.fst).Nodup :=
  h.sublist ((remove_sublist s k).map Prod.fst)

theorem set_eq (s : Store) (k v : String) :
    set s k v = insertStore s k ((lookupStore s k).getD [] ++ [v]) := by
  unfold set
  cases h : lookupStore s k with
  | none => simp
  | some st => simp

theorem applyStoreOp_push (s : Store) (k v : String) :
    applyStoreOp s (Op.push k v) = set s k v := rfl

theorem applyStoreOp_drop (s : Store) (k : String) :
    applyStoreOp s (Op.drop k) = removeStore s k := rfl

theorem lookup_set_self (s : Store) (k v : String) :
    lookupStore (set s k v) k = some ((lookupStore s k).getD [] ++ [v]) := by
  rw [set_eq]
  exact lookup_insert_self s k _

theorem lookup_set_other (s : Store) (k k2 v : String) (h : k ≠ k2) :
    lookupStore (set s k v) k2 = lookupStore s k2 := by
  rw [set_eq]
  exact lookup_insert_other s k k2 _ h

theorem nodup_applyStoreOp (s : Store) (op : Op)
    (h : (s.map Prod.fst).Nodup) : ((applyStoreOp s op).map Prod.fst).Nodup := by
  cases op with
  | push k v =>
    rw [applyStoreOp_push, set_eq]
    exact nodup_insert s k _ h
  | drop k =>
    rw [applyStoreOp_drop]
    exact nodup_remove s k h

theorem lookup_applyStoreOp (s : Store) (op : Op) (k : String)
    (h : (s.map Prod.fst).Nodup) :
    lookupStore (applyStoreOp s op) k = applyKeyOp k (lookupStore s k) op := by
  cases op with
  | push k2 v =>
    by_cases hk : k2 = k
    · subst hk
      simp [applyStoreOp, applyKeyOp, lookup_set_self]
    · simp [applyStoreOp, applyKeyOp, hk, lookup_set_other s k2 k v hk]
  | drop k2 =>
    by_cases hk : k2 = k
    · subst hk
      simp [applyStoreOp, applyKeyOp, del_stack, lookup_remove_self s k2 h]
    · simp [applyStoreOp, applyKeyOp, del_stack, hk, lookup_remove_other s k2 k hk]

theorem lookup_runFrom (ops : List Op) (s : Store) (k : String)
    (h : (s.map Prod.fst).Nodup) :
    lookupStore (runFrom s ops) k = ops.foldl (applyKeyOp k) (lookupStore s k) := by
  induction ops generalizing s with
  | nil => rfl
  | cons op ops ih =>
    rw [runFrom, List.foldl_cons, ← lookup_applyStoreOp s op k h]
    exact ih (applyStoreOp s op) (nodup_applyStoreOp s op h)

theorem get_eq_none_iff (s : Store) (k : String) :
    get s k = none ↔ lookupStore s k = none := by
  unfold get
  cases h : lookupStore s k with
  | none => simp
  | some st => simp [toJsonStrings]

theorem get_eq_map (s : Store) (k : String) :
    get s k = (lookupStore s k).map jsonStrings := by
  unfold get
  cases h : lookupStore s k with
  | none => rfl
  | some st => rfl

theorem applyKeyOp_isSome (k : String) (st : Option (List String)) (op : Op) :
    (applyKeyOp k st op).isSome = keyPresentStep k st.isSome op := by
  cases op with
  | push k2 v =>
    by_cases hk : k2 = k
    · simp [applyKeyOp, keyPresentStep, hk]
    · simp [applyKeyOp, keyPresentStep, hk]
  | drop k2 =>
    by_cases hk : k2 = k
    · simp [applyKeyOp, keyPresentStep, hk]
    · simp [applyKeyOp, keyPresentStep, hk]

theorem foldl_applyKeyOp_isSome (k : String) (ops : List Op) (st : Option (List String)) :
    (ops.foldl (applyKeyOp k) st).isSome = ops.foldl (keyPresentStep k) st.isSome := by
  induction ops generalizing st with
  | nil => rfl
  | cons op ops ih =>
    rw [List.foldl_cons, List.foldl_cons, ← applyKeyOp_isSome k st op]
    exact ih (applyKeyOp k st op)

theorem foldl_applyKeyOp_no_drop (k : String) (l : List Op) (st : List String)
    (h : Op.drop k ∉ l) :
    l.foldl (applyKeyOp k) (some st) = some (st ++ pushesTo k l) := by
  induction l generalizing st with
  | nil => simp [pushesTo]
  | cons op l ih =>
    have hop : op ≠ Op.drop k := fun he => h (he ▸ List.mem_cons_self op l)
    have hl : Op.drop k ∉ l := fun hm => h (List.mem_cons_of_mem op hm)
    cases op with
    | push k2 v =>
      by_cases hk : k2 = k
      · subst hk
        rw [List.foldl_cons]
        simp only [applyKeyOp, eq_self_iff_true, if_true, Option.getD_some]
        rw [ih (st ++ [v]) hl]
        simp [pushesTo, List.filterMap_cons, List.append_assoc]
      · rw [List.foldl_cons]
        simp only [applyKeyOp, if_neg hk]
        rw [ih st hl]
        simp [pushesTo, List.filterMap_cons, hk]
    | drop k2 =>
      have hk : ¬ k2 = k := fun he => hop (by rw [he])
      rw [List.foldl_cons]
      simp only [applyKeyOp, if_neg hk]
      rw [ih st hl]
      simp [pushesTo, List.filterMap_cons]

theorem strContains_empty (s : String) : strContains s ("") = true := by
  unfold strContains
  cases h : s.toList with
  | nil => rfl
  | cons c rest => rfl

theorem lookup_isSome_iff_mem (s : Store) (k : String) :
    (lookupStore s k).isSome = true ↔ ∃ st, (k, st) ∈ s := by
  induction s with
  | nil => simp [lookupStore]
  | cons e rest ih =>
    by_cases he : e.1 = k
    · subst he
      simp only [lookupStore, eq_self_iff_true, if_true, Option.isSome_some, true_iff]
      exact ⟨e.2, List.mem_cons_self e rest⟩
    · simp only [lookupStore, if_neg he, ih, List.mem_cons]
      constructor
      · intro hex
        obtain ⟨st, hst⟩ := hex
        exact ⟨st, Or.inr hst⟩
      · intro hex
        obtain ⟨st, hst⟩ := hex
        cases hst with
        | inl h2 =>
          exact absurd (congrArg Prod.fst h2).symm he
        | inr h2 => exact ⟨st, h2⟩

theorem option_eq_none_iff_isSome_false (o : Option (List String)) :
    o = none ↔ o.isSome = false := by
  cases o <;> simp

/-- C1: appends to a key preserve insertion order. In any operation sequence
containing push(k, v1) and later push(k, v2), with no drop of k in between or
afterwards, any later snapshot_one(k) returns the JSON array of a stack in
which v1 precedes v2; moreover, immediately after push(k, v), snapshot_one(k)
returns the JSON array of the previous stack with v appended, whose last
element is v. -/
theorem C1_push_order_preserved :
    (∀ (l1 l2 l3 : List Op) (k v1 v2 : String),
        Op.drop k ∉ l2 → Op.drop k ∉ l3 →
        ∃ a b c, get (runFrom [] (l1 ++ Op.push k v1 :: (l2 ++ Op.push k v2 :: l3))) k
          = some (jsonStrings (a ++ v1 :: (b ++ v2 :: c))))
    ∧ (∀ (s : Store) (k v : String),
        get (set s k v) k = some (jsonStrings ((lookupStore s k).getD [] ++ [v]))
        ∧ ((lookupStore s k).getD [] ++ [v]).getLast? = some v) := by
  constructor
  · intro l1 l2 l3 k v1 v2 h2 h3
    refine ⟨(List.foldl (applyKeyOp k) none l1).getD [], pushesTo k l2, pushesTo k l3, ?_⟩
    rw [get_eq_map, lookup_runFrom _ [] k (by simp)]
    simp only [lookupStore]
    rw [List.foldl_append, List.foldl_cons]
    have hst1 : applyKeyOp k (List.foldl (applyKeyOp k) none l1) (Op.push k v1)
        = some ((List.foldl (applyKeyOp k) none l1).getD [] ++ [v1]) := by
      simp [applyKeyOp]
    rw [hst1, List.foldl_append, foldl_applyKeyOp_no_drop k l2 _ h2, List.foldl_cons]
    have hst2 : applyKeyOp k
        (some (((List.foldl (applyKeyOp k) none l1).getD [] ++ [v1]) ++ pushesTo k l2))
        (Op.push k v2)
        = some ((((List.foldl (applyKeyOp k) none l1).getD [] ++ [v1]) ++ pushesTo k l2) ++ [v2]) := by
      simp [applyKeyOp]
    rw [hst2, foldl_applyKeyOp_no_drop k l3 _ h3]
    simp [List.append_assoc]
  · intro s k v
    constructor
    · rw [get_eq_map, lookup_set_self]
      rfl
    · simp

/-- Witness for C1 at the two-push trace push(k, u); push(k, w). -/
theorem C1_push_order_preserved_witness :
    ∃ a b c, get (runFrom [] ([] ++ Op.push ("k") ("u") :: ([] ++ Op.push ("k") ("w") :: []))) ("k")
      = some (jsonStrings (a ++ ("u") :: (b ++ ("w") :: c))) :=
  C1_push_order_preserved.1 [] [] [] ("k") ("u") ("w") (by simp) (by simp)

/-- C2: the claim asserts that N concurrent pushes to the same key never lose
a value because push atomically obtains or installs the entry. The code's
`set` is not atomic: it evaluates `self.inner.get(key)` and, when that
returns `None`, later runs `self.inner.insert(key, ...)`, which overwrites
any entry installed in between. The first conjunct shows the interleaving
model agrees with the sequential semantics when the two pushes do not
overlap; the second exhibits the racy interleaving in which both threads
observe the key absent, both complete, and the push of "a" is lost: the
final stack holds 1 element, not 2. -/
theorem C2_concurrent_push_race :
    (runSched ([PThread.mk ("k") ("a") PushPhase.start, PThread.mk ("k") ("b") PushPhase.start], ([] : Store)) [0, 0, 1, 1]
      = ([PThread.mk ("k") ("a") PushPhase.done, PThread.mk ("k") ("b") PushPhase.done], [(("k"), ["a", "b"])]))
    ∧ (runSched ([PThread.mk ("k") ("a") PushPhase.start, PThread.mk ("k") ("b") PushPhase.start], ([] : Store)) [0, 1, 0, 1]
      = ([PThread.mk ("k") ("a") PushPhase.done, PThread.mk ("k") ("b") PushPhase.done], [(("k"), ["b"])])) :=
  ⟨by decide, by decide⟩

/-- C3: on a fresh store, push("test", "value1"); push("test", "value2");
snapshot_one("test") returns exactly the JSON text ["value1","value2"]. -/
theorem C3_round_trip :
    get (set (set [] ("test") ("value1")) ("test") ("value2")) ("test")
      = some ("[\"value1\",\"value2\"]") := by
  decide

/-- C4: over any operation sequence from a fresh store, snapshot_one(k)
returns absent exactly when k has never been pushed to or has been dropped
since its last push; in particular after drop(k) it stays absent until the
next push(k, _). -/
theorem C4_absent_iff_never_pushed_or_dropped (ops : List Op) (k : String) :
    (get (runFrom [] ops) k = none ↔ pushedSinceLastDrop ops k = false) := by
  rw [get_eq_none_iff, lookup_runFrom ops [] k (by simp), option_eq_none_iff_isSome_false,
    foldl_applyKeyOp_isSome]
  simp [lookupStore, pushedSinceLastDrop]

/-- C5: drop(k) returns true iff k was present immediately prior, removes the
entry, and a second drop(k) with no intervening push returns false. Stated
for stores with pairwise-distinct keys, which holds for every reachable map
state. -/
theorem C5_drop_presence_and_idempotence (s : Store) (k : String)
    (h : (s.map Prod.fst).Nodup) :
    (del_stack s k).1 = (lookupStore s k).isSome
    ∧ lookupStore ((del_stack s k).2) k = none
    ∧ (del_stack ((del_stack s k).2) k).1 = false := by
  refine ⟨rfl, lookup_remove_self s k h, ?_⟩
  show (lookupStore (removeStore s k) k).isSome = false
  rw [lookup_remove_self s k h]
  rfl

/-- Witness for C5 on the store holding one stack under "temp". -/
theorem C5_drop_presence_and_idempotence_witness :
    (del_stack [(("temp"), ["data"])] ("temp")).1 = (lookupStore [(("temp"), ["data"])] ("temp")).isSome
    ∧ lookupStore ((del_stack [(("temp"), ["data"])] ("temp")).2) ("temp") = none
    ∧ (del_stack ((del_stack [(("temp"), ["data"])] ("temp")).2) ("temp")).1 = false :=
  C5_drop_presence_and_idempotence [(("temp"), ["data"])] ("temp") (by decide)

/-- C6: the entry list serialized by snapshot_filtered(f) contains an entry
for key k iff k is present in the store and k contains f as a substring, and
the empty filter keeps every entry, so snapshot_filtered("") enumerates
exactly the present keys. -/
theorem C6_filter_membership (s : Store) (f k : String) :
    ((∃ st, (k, st) ∈ iterEntries s f) ↔ ((lookupStore s k).isSome = true ∧ strContains k f = true))
    ∧ iterEntries s ("") = s := by
  constructor
  · constructor
    · intro hex
      obtain ⟨st, hst⟩ := hex
      have hm := List.mem_filter.1 hst
      exact ⟨(lookup_isSome_iff_mem s k).2 ⟨st, hm.1⟩, hm.2⟩
    · intro hand
      obtain ⟨st, hst⟩ := (lookup_isSome_iff_mem s k).1 hand.1
      exact ⟨st, List.mem_filter.2 ⟨hst, hand.2⟩⟩
  · unfold iterEntries
    refine List.filter_eq_self.2 ?_
    intro e he
    exact strContains_empty e.1

/-- C7: snapshot_filtered never returns absent — serializing string pairs
cannot fail — and on a store where no key matches the filter it returns
Some("[]"). -/
theorem C7_filtered_never_absent (s : Store) (f : String) :
    iter s f = some (jsonEntriesStr (iterEntries s f))
    ∧ ((∀ e ∈ s, strContains e.1 f = false) → iter s f = some ("[]")) := by
  refine ⟨rfl, ?_⟩
  intro hall
  have hempty : iterEntries s f = [] := by
    unfold iterEntries
    refine List.filter_eq_nil_iff.2 ?_
    intro e he
    simp [hall e he]
  rw [iter, hempty]
  rfl

/-- Witness for C7 on a one-entry store whose key does not contain the
filter. -/
theorem C7_filtered_never_absent_witness :
    iter [(("a"), ["x"])] ("z") = some ("[]") :=
  (C7_filtered_never_absent [(("a"), ["x"])] ("z")).2 (by decide)

/-- C8: the empty string is a valid value: push("empty", "") then
snapshot_one("empty") returns the present JSON text [""], distinct from the
absent result of a never-pushed key. -/
theorem C8_empty_value_is_element :
    get (set [] ("empty") ("")) ("empty") = some ("[\"\"]")
    ∧ get ([] : Store) ("empty") = none :=
  ⟨by decide, rfl⟩

/-- C9: stacks under distinct keys are independent: push(k, v) and drop(k)
leave snapshot_one(k2) unchanged for every k2 ≠ k; and the concrete
four-push scenario yields ["a","b"] under "s1" and ["x","y"] under "s2". -/
theorem C9_independent_stacks :
    (∀ (s : Store) (k k2 v : String), k ≠ k2 →
        get (set s k v) k2 = get s k2 ∧ get ((del_stack s k).2) k2 = get s k2)
    ∧ get (runFrom [] [Op.push ("s1") ("a"), Op.push ("s1") ("b"), Op.push ("s2") ("x"), Op.push ("s2") ("y")]) ("s1") = some ("[\"a\",\"b\"]")
    ∧ get (runFrom [] [Op.push ("s1") ("a"), Op.push ("s1") ("b"), Op.push ("s2") ("x"), Op.push ("s2") ("y")]) ("s2") = some ("[\"x\",\"y\"]") := by
  refine ⟨?_, by decide, by decide⟩
  intro s k k2 v hne
  constructor
  · rw [get_eq_map, get_eq_map, lookup_set_other s k k2 v hne]
  · show get (removeStore s k) k2 = get s k2
    rw [get_eq_map, get_eq_map, lookup_remove_other s k k2 hne]

/-- Witness for C9 with keys "p" and "q" on the empty store. -/
theorem C9_independent_stacks_witness :
    get (set [] ("p") ("v")) ("q") = get ([] : Store) ("q")
    ∧ get ((del_stack ([] : Store) ("p")).2) ("q") = get ([] : Store) ("q") :=
  C9_independent_stacks.1 [] ("p") ("q") ("v") (by decide)

/-- C10: the empty string is accepted as a key and behaves like any other
key: push("", v) creates the stack, snapshot_one("") returns it, and
drop("") removes it and returns true. -/
theorem C10_empty_key_accepted :
    get (set [] ("") ("v")) ("") = some ("[\"v\"]")
    ∧ (del_stack (set [] ("") ("v")) ("")).1 = true
    ∧ get ((del_stack (set [] ("") ("v")) ("")).2) ("") = none :=
  ⟨by decide, by decide, by decide⟩

end PiStash
